import Mathlib

/-!
Shallow embedding of `src/index.ts` (class `CircularBuffer<T>`), a fixed-capacity
FIFO ring buffer that overwrites its oldest entry once full.

Modelling conventions:
* The JS backing array `buffer` (created by `new Array<T>(capacity)`, so possibly
  holding holes) is a `List (Option α)`; a hole / `undefined` slot is `none`.
* JS `number` indices are `Int`; the stored capacity and `writeIndex` are `Nat`
  (the constructor guard makes the capacity a positive integer, and `writeIndex`
  only ever takes values `0..capacity`).
* Methods that `throw` return `Except String _`; the thrown `Error` message is
  abstracted to a fixed string per error site.
* JS `%` on non-negative-or-mixed integers is truncated remainder: `Int.tmod`.
* `Array.prototype.at` (negative indices address from the end, out-of-range gives
  `undefined`) is `arrayAt`; plain element assignment `arr[i] = v` (which ignores
  negative indices as array content and extends the array when `i >= length`) is
  `setAt`.
-/

/-- State of a `CircularBuffer<T>` instance: its four fields. -/
structure CircularBuffer (α : Type) where
  buffer : List (Option α)
  capacity : Nat
  filled : Bool
  writeIndex : Nat
deriving Repr, DecidableEq

namespace CircularBuffer

variable {α : Type}

/-- JS `arr[i] = v` on an array modelled as a list: a negative index stores an
object property invisible to the array's elements (no-op here); an index below
the length sets the slot; an index at or above the length extends the array with
holes up to `i` and then the value. -/
def setAt (l : List (Option α)) (i : Int) (v : α) : List (Option α) :=
  if i < 0 then l
  else if i < (l.length : Int) then l.set i.toNat (some v)
  else l ++ List.replicate (i.toNat - l.length) none ++ [some v]

/-- JS `Array.prototype.at`: a negative index counts from the end; in-range
access returns the slot's content (`none` for a hole, matching `undefined`);
out-of-range access returns `undefined` (`none`). -/
def arrayAt (l : List (Option α)) (i : Int) : Option α :=
  let k := if i < 0 then (l.length : Int) + i else i
  if 0 ≤ k ∧ k < (l.length : Int) then l.getD k.toNat none else none

/-- Constructor `constructor(capacity)`: throws when `capacity < 2`, otherwise allocates
`new Array<T>(capacity)` (all holes), `filled = false`, `writeIndex = 0`. -/
def construct (capacity : Int) : Except String (CircularBuffer α) :=
  if capacity < 2 then .error "Capacity must be at least 2"
  else .ok { buffer := List.replicate capacity.toNat none
             capacity := capacity.toNat
             filled := false
             writeIndex := 0 }

/-- The state `construct c` produces on success (with `c` already a `Nat`). -/
def freshBuf (c : Nat) : CircularBuffer α :=
  { buffer := List.replicate c none, capacity := c, filled := false, writeIndex := 0 }

/-- Method `isEmpty()`: `!this.filled && this.writeIndex === 0`. -/
def isEmpty (b : CircularBuffer α) : Bool :=
  !b.filled && b.writeIndex == 0

/-- Method `isFull()`: `this.filled`. -/
def isFull (b : CircularBuffer α) : Bool :=
  b.filled

/-- Method `put(val)`: write at `writeIndex`, increment it, and on reaching `capacity`
reset it to `0` and latch `filled = true`. -/
def put (b : CircularBuffer α) (val : α) : CircularBuffer α :=
  let buffer := setAt b.buffer (b.writeIndex : Int) val
  let writeIndex := b.writeIndex + 1
  if b.capacity ≤ writeIndex then
    { b with buffer := buffer, writeIndex := 0, filled := true }
  else
    { b with buffer := buffer, writeIndex := writeIndex }

/-- Method `clear()`: reset `writeIndex` to `0` and `filled` to `false`; the storage
array is untouched. -/
def clear (b : CircularBuffer α) : CircularBuffer α :=
  { b with writeIndex := 0, filled := false }

/-- Method `size()`: `capacity` when full, else `writeIndex`. -/
def size (b : CircularBuffer α) : Nat :=
  if b.isFull then b.capacity else b.writeIndex

/-- Method `relativeIndex(index)`: throw when `Math.abs(index) > capacity`; rewrite a
negative index as `size() + index`; when not full return it directly, when full
return `(index + writeIndex) % capacity`. -/
def relativeIndex (b : CircularBuffer α) (index : Int) : Except String Int :=
  if (b.capacity : Int) < |index| then .error "Index out of bounds"
  else
    let index := if index < 0 then (b.size : Int) + index else index
    if !b.isFull then .ok index
    else .ok (Int.tmod (index + (b.writeIndex : Int)) (b.capacity : Int))

/-- Method `at(index)`: `this.buffer.at(this.relativeIndex(index))!`. A successful call
yields the slot content, `none` standing for `undefined`. -/
def atIndex (b : CircularBuffer α) (index : Int) : Except String (Option α) :=
  (b.relativeIndex index).map (fun i => arrayAt b.buffer i)

/-- Method `putAt(val, index)`: `this.buffer[this.relativeIndex(index)] = val`. -/
def putAt (b : CircularBuffer α) (val : α) (index : Int) : Except String (CircularBuffer α) :=
  (b.relativeIndex index).map (fun i => { b with buffer := setAt b.buffer i val })

/-- The full branch of the private generator `iterator()`: starting at `index`,
yield `n` slots, stepping `index = (index + 1) % cap` after each yield. -/
def iterGo (buf : List (Option α)) (cap : Nat) : Nat → Nat → List (Option α)
  | _, 0 => []
  | index, n + 1 => buf.getD index none :: iterGo buf cap ((index + 1) % cap) n

/-- Method `toArray()` = `Array.from(this)`, materialising `iterator()`: when not full,
slots `0..writeIndex-1` in order; when full, `capacity` slots starting at
`writeIndex` with modulo wrap-around. -/
def toArray (b : CircularBuffer α) : List (Option α) :=
  if !b.isFull then (List.range b.writeIndex).map (fun i => b.buffer.getD i none)
  else iterGo b.buffer b.capacity b.writeIndex b.capacity

/-- Put a whole list of values in order (`put` is chainable in the source). -/
def putList (b : CircularBuffer α) (vs : List α) : CircularBuffer α :=
  vs.foldl (fun b v => b.put v) b

/-- Returns `true` on the `Except.error` constructor: the call threw. -/
def isErr {ε β : Type} : Except ε β → Bool
  | .error _ => true
  | .ok _ => false

/-- Buffer states reachable from a successful construction by the mutating
public operations (`put`, `putAt`, `clear`); the remaining public operations
read the state without changing it. -/
inductive Reachable : CircularBuffer α → Prop where
  | construct (c : Nat) (h : 2 ≤ c) : Reachable (freshBuf c)
  | put (b : CircularBuffer α) (v : α) : Reachable b → Reachable (b.put v)
  | putAt (b : CircularBuffer α) (v : α) (i : Int) (b' : CircularBuffer α) :
      Reachable b → b.putAt v i = .ok b' → Reachable b'
  | clear (b : CircularBuffer α) : Reachable b → Reachable b.clear

/-- Well-formedness invariant maintained by every reachable state: the capacity
is at least 2, `writeIndex` is strictly below it, the storage array has at least
`capacity` slots, and every live slot (below `writeIndex` when not full, below
`capacity` when full) has been written. -/
def WF (b : CircularBuffer α) : Prop :=
  2 ≤ b.capacity ∧ b.writeIndex < b.capacity ∧ b.capacity ≤ b.buffer.length ∧
    ∀ j < (if b.filled then b.capacity else b.writeIndex), b.buffer.getD j none ≠ none

end CircularBuffer

namespace CircularBuffer

variable {α : Type}

/-! ### List helper lemmas -/

lemma getD_set_self {β : Type} : ∀ (l : List β) (k : Nat) (x d : β), k < l.length →
    (l.set k x).getD k d = x
  | [], _, _, _, h => by simp at h
  | _ :: _, 0, _, _, _ => rfl
  | _ :: t, k + 1, x, d, h => by
      simpa using getD_set_self t k x d (by simpa using h)

lemma getD_set_ne {β : Type} : ∀ (l : List β) (k j : Nat) (x d : β), j ≠ k →
    (l.set k x).getD j d = l.getD j d
  | [], _, _, _, _, _ => rfl
  | _ :: _, 0, 0, _, _, h => absurd rfl h
  | _ :: _, 0, _ + 1, _, _, _ => rfl
  | _ :: _, _ + 1, 0, _, _, _ => rfl
  | _ :: t, k + 1, j + 1, x, d, h => by
      simpa using getD_set_ne t k j x d (fun hh => h (by omega))

lemma getD_append_left {β : Type} : ∀ (l₁ l₂ : List β) (j : Nat) (d : β), j < l₁.length →
    (l₁ ++ l₂).getD j d = l₁.getD j d
  | [], _, _, _, h => by simp at h
  | _ :: _, _, 0, _, _ => rfl
  | _ :: t, l₂, j + 1, d, h => by
      simpa using getD_append_left t l₂ j d (by simpa using h)

lemma getD_map_range {β : Type} (f : Nat → β) (d : β) (n i : Nat) :
    ((List.range n).map f).getD i d = if i < n then f i else d := by
  rw [List.getD_eq_getElem?_getD, List.getElem?_map]
  by_cases h : i < n
  · rw [List.getElem?_range h]
    simp [h]
  · rw [List.getElem?_eq_none (by simpa using Nat.le_of_not_lt h)]
    simp [h]

lemma reduceOption_map_some {β : Type} : ∀ (l : List (Option β)), (∀ x ∈ l, x ≠ none) →
    l.reduceOption.map some = l
  | [], _ => rfl
  | none :: _, h => absurd (h none (by simp)) (by simp)
  | some a :: t, h => by
      rw [List.reduceOption_cons_of_some, List.map_cons,
        reduceOption_map_some t (fun x hx => h x (by simp [hx]))]

/-! ### setAt / arrayAt helper lemmas -/

lemma setAt_eq_set (l : List (Option α)) (w : Nat) (v : α) (h : w < l.length) :
    setAt l (w : Int) v = l.set w (some v) := by
  unfold setAt
  rw [if_neg (by omega), if_pos (by exact_mod_cast h)]
  simp

lemma length_setAt_ge (l : List (Option α)) (i : Int) (v : α) :
    l.length ≤ (setAt l i v).length := by
  unfold setAt
  split_ifs with h1 h2
  · exact Nat.le_refl _
  · rw [List.length_set]
  · simp

lemma getD_setAt_of_some (l : List (Option α)) (i : Int) (v : α) (j : Nat)
    (hj : j < l.length) (h : l.getD j none ≠ none) :
    (setAt l i v).getD j none ≠ none := by
  unfold setAt
  split_ifs with h1 h2
  · exact h
  · by_cases hji : j = i.toNat
    · rw [hji, getD_set_self l i.toNat (some v) none (hji ▸ hj)]
      simp
    · rw [getD_set_ne l i.toNat j (some v) none hji]
      exact h
  · rw [List.append_assoc, getD_append_left l _ j none hj]
    exact h

lemma arrayAt_coe (l : List (Option α)) (j : Nat) (hj : j < l.length) :
    arrayAt l (j : Int) = l.getD j none := by
  simp only [arrayAt]
  rw [if_neg (show ¬ ((j : Int) < 0) from by omega)]
  rw [if_pos ⟨by omega, by exact_mod_cast hj⟩]
  simp

end CircularBuffer

namespace CircularBuffer

variable {α : Type}

/-! ### toArray characterization -/

lemma iterGo_eq (buf : List (Option α)) (cap : Nat) (hc : 0 < cap) :
    ∀ (n w : Nat), w < cap →
      iterGo buf cap w n = (List.range n).map (fun i => buf.getD ((w + i) % cap) none)
  | 0, _, _ => rfl
  | n + 1, w, hw => by
    rw [iterGo, iterGo_eq buf cap hc n ((w + 1) % cap) (Nat.mod_lt _ hc),
      List.range_succ_eq_map, List.map_cons, List.map_map]
    refine congrArg₂ _ ?_ ?_
    · rw [Nat.add_zero, Nat.mod_eq_of_lt hw]
    · refine List.map_congr_left fun i _ => ?_
      simp only [Function.comp_apply]
      rw [Nat.mod_add_mod]
      exact congrArg (fun t => buf.getD (t % cap) none) (by omega)

lemma toArray_not_full (b : CircularBuffer α) (h : b.filled = false) :
    b.toArray = (List.range b.writeIndex).map (fun i => b.buffer.getD i none) := by
  simp [toArray, isFull, h]

lemma toArray_full (b : CircularBuffer α) (h : b.filled = true)
    (hw : b.writeIndex < b.capacity) :
    b.toArray =
      (List.range b.capacity).map (fun i => b.buffer.getD ((b.writeIndex + i) % b.capacity) none) := by
  simp only [toArray, isFull, h, Bool.not_true, Bool.false_eq_true, if_false]
  exact iterGo_eq b.buffer b.capacity (by omega) b.capacity b.writeIndex hw

/-! ### put: state-level step lemmas -/

lemma put_capacity (b : CircularBuffer α) (v : α) : (b.put v).capacity = b.capacity := by
  simp only [put]
  split_ifs <;> rfl

lemma put_buffer (b : CircularBuffer α) (v : α) :
    (b.put v).buffer = setAt b.buffer (b.writeIndex : Int) v := by
  simp only [put]
  split_ifs <;> rfl

lemma put_filled (b : CircularBuffer α) (v : α) :
    (b.put v).filled = (b.filled || decide (b.capacity ≤ b.writeIndex + 1)) := by
  simp only [put]
  split_ifs with h <;> simp [h]

lemma put_writeIndex (b : CircularBuffer α) (v : α) (hw : b.writeIndex < b.capacity) :
    (b.put v).writeIndex = (b.writeIndex + 1) % b.capacity := by
  simp only [put]
  split_ifs with h
  · have : b.writeIndex + 1 = b.capacity := by omega
    simp [this, Nat.mod_self]
  · rw [Nat.mod_eq_of_lt (show b.writeIndex + 1 < b.capacity by omega)]

lemma put_buffer_length (b : CircularBuffer α) (v : α) (hw : b.writeIndex < b.buffer.length) :
    (b.put v).buffer.length = b.buffer.length := by
  rw [put_buffer, setAt_eq_set _ _ _ hw, List.length_set]

end CircularBuffer

namespace CircularBuffer

variable {α : Type}

lemma toArray_put_not_full (b : CircularBuffer α) (v : α) (hf : b.filled = false)
    (hw : b.writeIndex < b.capacity) (hlen : b.capacity ≤ b.buffer.length) :
    (b.put v).toArray = b.toArray ++ [some v] := by
  have hwlen : b.writeIndex < b.buffer.length := by omega
  have hbuf : (b.put v).buffer = b.buffer.set b.writeIndex (some v) := by
    rw [put_buffer, setAt_eq_set _ _ _ hwlen]
  have hmap : (List.range b.writeIndex).map (fun i => ((b.put v).buffer).getD i none)
      = (List.range b.writeIndex).map (fun i => b.buffer.getD i none) := by
    refine List.map_congr_left fun i hi => ?_
    simp only [List.mem_range] at hi
    rw [hbuf, getD_set_ne _ _ _ _ _ (by omega)]
  rw [toArray_not_full b hf]
  by_cases h : b.capacity ≤ b.writeIndex + 1
  · have hfill : (b.put v).filled = true := by
      rw [put_filled, hf]
      simp [h]
    have hw0 : (b.put v).writeIndex = 0 := by
      rw [put_writeIndex b v hw, show b.writeIndex + 1 = b.capacity by omega, Nat.mod_self]
    rw [toArray_full _ hfill (by rw [hw0, put_capacity]; omega), hw0, put_capacity]
    have hdrop : (List.range b.capacity).map
          (fun i => ((b.put v).buffer).getD ((0 + i) % b.capacity) none)
        = (List.range b.capacity).map (fun i => ((b.put v).buffer).getD i none) := by
      refine List.map_congr_left fun i hi => ?_
      simp only [List.mem_range] at hi
      rw [Nat.zero_add, Nat.mod_eq_of_lt hi]
    rw [hdrop, show b.capacity = b.writeIndex + 1 by omega, List.range_succ, List.map_append,
      List.map_singleton, hmap, hbuf, getD_set_self _ _ _ _ hwlen]
  · have hfill : (b.put v).filled = false := by
      rw [put_filled, hf]
      simp [h]
    rw [toArray_not_full _ hfill, put_writeIndex b v hw,
      Nat.mod_eq_of_lt (show b.writeIndex + 1 < b.capacity by omega), List.range_succ,
      List.map_append, List.map_singleton, hmap, hbuf, getD_set_self _ _ _ _ hwlen]

lemma map_range_succ_right {β : Type} (f : Nat → β) (k : Nat) :
    (List.range (k + 1)).map f = (List.range k).map f ++ [f k] := by
  rw [List.range_succ, List.map_append, List.map_singleton]

lemma drop_one_map_range {β : Type} (f : Nat → β) (k : Nat) :
    ((List.range (k + 1)).map f).drop 1 = (List.range k).map (fun i => f (i + 1)) := by
  rw [List.range_succ_eq_map, List.map_cons]
  simp only [List.drop_succ_cons, List.drop_zero]
  rw [List.map_map]
  rfl

lemma toArray_put_full (b : CircularBuffer α) (v : α) (hf : b.filled = true)
    (hw : b.writeIndex < b.capacity) (hlen : b.capacity ≤ b.buffer.length) :
    (b.put v).toArray = b.toArray.drop 1 ++ [some v] := by
  have hwlen : b.writeIndex < b.buffer.length := by omega
  have hbuf : (b.put v).buffer = b.buffer.set b.writeIndex (some v) := by
    rw [put_buffer, setAt_eq_set _ _ _ hwlen]
  have hfill : (b.put v).filled = true := by
    rw [put_filled, hf]
    simp
  have hL : (b.put v).toArray = (List.range b.capacity).map
      (fun i => (b.buffer.set b.writeIndex (some v)).getD ((b.writeIndex + 1 + i) % b.capacity) none) := by
    rw [toArray_full _ hfill
        (by rw [put_capacity, put_writeIndex b v hw]; exact Nat.mod_lt _ (by omega)),
      put_capacity, put_writeIndex b v hw, hbuf]
    refine List.map_congr_left fun i _ => ?_
    rw [Nat.mod_add_mod]
  obtain ⟨k, hk⟩ : ∃ k, b.capacity = k + 1 := ⟨b.capacity - 1, by omega⟩
  have hwk : b.writeIndex < k + 1 := by omega
  rw [hL, toArray_full b hf hw, hk, drop_one_map_range, map_range_succ_right]
  refine congrArg₂ _ ?_ ?_
  · refine List.map_congr_left fun i hi => ?_
    simp only [List.mem_range] at hi
    have hne : (b.writeIndex + 1 + i) % (k + 1) ≠ b.writeIndex := by
      intro hEq
      have hmodeq : b.writeIndex ≡ b.writeIndex + 1 + i [MOD k + 1] := by
        unfold Nat.ModEq
        rw [Nat.mod_eq_of_lt hwk, hEq]
      have hdvd := (Nat.modEq_iff_dvd' (by omega)).mp hmodeq
      rw [show b.writeIndex + 1 + i - b.writeIndex = 1 + i by omega] at hdvd
      exact Nat.not_dvd_of_pos_of_lt (by omega) (by omega) hdvd
    show (b.buffer.set b.writeIndex (some v)).getD ((b.writeIndex + 1 + i) % (k + 1)) none
        = b.buffer.getD ((b.writeIndex + (i + 1)) % (k + 1)) none
    rw [getD_set_ne _ _ _ _ _ hne]
    exact congrArg (fun t => b.buffer.getD (t % (k + 1)) none) (by omega)
  · show [(b.buffer.set b.writeIndex (some v)).getD ((b.writeIndex + 1 + k) % (k + 1)) none]
        = [some v]
    rw [show b.writeIndex + 1 + k = b.writeIndex + (k + 1) by omega, Nat.add_mod_right,
      Nat.mod_eq_of_lt hwk, getD_set_self _ _ _ _ hwlen]

end CircularBuffer

namespace CircularBuffer

variable {α : Type}

/-- State after `put`-ing a whole list into a fresh buffer of capacity `c ≥ 2`:
the flag is latched iff at least `c` values went in, the write index is the
count mod `c`, and `toArray` is the last `min count c` values, oldest first. -/
lemma putList_state (c : Nat) (hc : 2 ≤ c) (vs : List α) :
    (putList (freshBuf c) vs).capacity = c ∧
    (putList (freshBuf c) vs).buffer.length = c ∧
    (putList (freshBuf c) vs).filled = decide (c ≤ vs.length) ∧
    (putList (freshBuf c) vs).writeIndex = vs.length % c ∧
    (putList (freshBuf c) vs).toArray = (vs.drop (vs.length - c)).map some := by
  induction vs using List.reverseRecOn with
  | nil =>
    have h0 : ¬ (c ≤ 0) := by omega
    refine ⟨rfl, by simp [putList, freshBuf], by simp [putList, freshBuf, h0], by simp [putList, freshBuf], ?_⟩
    simp [putList, freshBuf, toArray, isFull]
  | append_singleton vs v ih =>
    obtain ⟨hcap, hlen, hfill, hwi, harr⟩ := ih
    have hput : putList (freshBuf c) (vs ++ [v]) = (putList (freshBuf c) vs).put v := by
      simp [putList, List.foldl_concat]
    set b := putList (freshBuf c) vs with hb
    rw [hput]
    by_cases hfull : c ≤ vs.length
    · have hfillT : b.filled = true := by
        rw [hfill]
        simp [hfull]
      have hwlt : b.writeIndex < b.capacity := by
        rw [hwi, hcap]
        exact Nat.mod_lt _ (by omega)
      have hclen : b.capacity ≤ b.buffer.length := by
        rw [hcap, hlen]
      have hwlen : b.writeIndex < b.buffer.length := by omega
      have hle : c ≤ (vs ++ [v]).length := by
        rw [List.length_append]
        simp
        omega
      refine ⟨by rw [put_capacity, hcap], ?_, ?_, ?_, ?_⟩
      · rw [put_buffer_length b v hwlen, hlen]
      · rw [put_filled, hfillT]
        simp
        omega
      · rw [put_writeIndex b v hwlt, hwi, hcap, Nat.mod_add_mod, List.length_append]
        simp
      · rw [toArray_put_full b v hfillT hwlt hclen, harr, ← List.map_drop, List.drop_drop,
          List.length_append,
          show vs.length + [v].length - c = vs.length - c + 1 from by simp; omega,
          List.drop_append_of_le_length (by omega), List.map_append]
        simp
    · have hfillF : b.filled = false := by
        rw [hfill]
        simp [hfull]
      have hwi' : b.writeIndex = vs.length := by
        rw [hwi, Nat.mod_eq_of_lt (by omega)]
      have hwlt : b.writeIndex < b.capacity := by
        rw [hwi', hcap]
        omega
      have hclen : b.capacity ≤ b.buffer.length := by
        rw [hcap, hlen]
      refine ⟨by rw [put_capacity, hcap], ?_, ?_, ?_, ?_⟩
      · rw [put_buffer_length b v (by omega), hlen]
      · rw [put_filled, hfillF, hwi', hcap, List.length_append]
        simp
      · rw [put_writeIndex b v hwlt, hwi', hcap, List.length_append]
        simp
      · rw [toArray_put_not_full b v hfillF hwlt hclen, harr,
          show vs.length - c = 0 from by omega,
          show (vs ++ [v]).length - c = 0 from by rw [List.length_append]; simp; omega]
        simp

end CircularBuffer

namespace CircularBuffer

variable {α : Type}

/-- Every reachable state is well-formed. -/
lemma reachable_wf (b : CircularBuffer α) (h : Reachable b) : WF b := by
  induction h with
  | construct c hcap =>
    refine ⟨hcap, by simp [freshBuf]; omega, by simp [freshBuf], ?_⟩
    intro j hj
    simp [freshBuf] at hj
  | put b v hb ih =>
    obtain ⟨hc, hw, hlen, hlive⟩ := ih
    have hwlen : b.writeIndex < b.buffer.length := by omega
    refine ⟨by rw [put_capacity]; exact hc, ?_, ?_, ?_⟩
    · rw [put_writeIndex b v hw, put_capacity]
      exact Nat.mod_lt _ (by omega)
    · rw [put_capacity, put_buffer_length b v hwlen]
      exact hlen
    · intro j hj
      rw [put_buffer, setAt_eq_set _ _ _ hwlen]
      by_cases hji : j = b.writeIndex
      · rw [hji, getD_set_self _ _ _ _ hwlen]
        simp
      · rw [getD_set_ne _ _ _ _ _ hji]
        apply hlive
        rw [put_capacity, put_filled, put_writeIndex b v hw] at hj
        cases hbf : b.filled with
        | true =>
          rw [hbf] at hj
          simp at hj
          simp [hj]
        | false =>
          rw [hbf] at hj
          simp only [Bool.false_or] at hj
          show j < b.writeIndex
          by_cases hwrap : b.capacity ≤ b.writeIndex + 1
          · simp [hwrap] at hj
            omega
          · simp [hwrap] at hj
            rw [Nat.mod_eq_of_lt (by omega)] at hj
            omega
  | putAt b v i b' hb heq ih =>
    obtain ⟨hc, hw, hlen, hlive⟩ := ih
    cases hrel : b.relativeIndex i with
    | error e =>
      rw [putAt, hrel] at heq
      simp [Except.map] at heq
    | ok idx =>
      rw [putAt, hrel] at heq
      simp only [Except.map, Except.ok.injEq] at heq
      subst heq
      refine ⟨hc, hw, Nat.le_trans hlen (length_setAt_ge _ _ _), ?_⟩
      intro j hj
      have hjc : j < b.buffer.length := by
        cases hbf : b.filled <;> rw [hbf] at hj <;> simp at hj <;> omega
      exact getD_setAt_of_some b.buffer idx v j hjc (hlive j hj)
  | clear b hb ih =>
    obtain ⟨hc, hw, hlen, hlive⟩ := ih
    refine ⟨hc, by simp [clear]; omega, hlen, ?_⟩
    intro j hj
    simp [clear] at hj

end CircularBuffer

namespace CircularBuffer

variable {α : Type}

/-! ### Evaluation lemmas for size, relativeIndex and atIndex -/

lemma tmod_coe (a b : Nat) : Int.tmod (a : Int) (b : Int) = ((a % b : Nat) : Int) := rfl

lemma size_le_capacity (b : CircularBuffer α) (hw : b.writeIndex < b.capacity) :
    b.size ≤ b.capacity := by
  unfold size isFull
  split_ifs <;> omega

lemma size_not_full (b : CircularBuffer α) (hbf : b.filled = false) : b.size = b.writeIndex := by
  simp [size, isFull, hbf]

lemma size_full (b : CircularBuffer α) (hbf : b.filled = true) : b.size = b.capacity := by
  simp [size, isFull, hbf]

lemma length_toArray (b : CircularBuffer α) (hw : b.writeIndex < b.capacity) :
    (b.toArray).length = b.size := by
  cases hbf : b.filled
  · rw [toArray_not_full b hbf, List.length_map, List.length_range, size_not_full b hbf]
  · rw [toArray_full b hbf hw, List.length_map, List.length_range, size_full b hbf]

lemma relativeIndex_eq_not_full (b : CircularBuffer α) (i : Int)
    (h : ¬ ((b.capacity : Int) < |i|)) (hbf : b.filled = false) :
    b.relativeIndex i = .ok (if i < 0 then (b.size : Int) + i else i) := by
  unfold relativeIndex
  rw [if_neg h]
  simp [isFull, hbf]

lemma relativeIndex_eq_full (b : CircularBuffer α) (i : Int)
    (h : ¬ ((b.capacity : Int) < |i|)) (hbf : b.filled = true) :
    b.relativeIndex i =
      .ok (Int.tmod ((if i < 0 then (b.size : Int) + i else i) + (b.writeIndex : Int))
        (b.capacity : Int)) := by
  unfold relativeIndex
  rw [if_neg h]
  simp [isFull, hbf]

lemma atIndex_eq_of_rel (b : CircularBuffer α) (i x : Int) (h : b.relativeIndex i = .ok x) :
    b.atIndex i = .ok (arrayAt b.buffer x) := by
  rw [atIndex, h]
  rfl

lemma isErr_map {ε β γ : Type} (f : β → γ) (r : Except ε β) : isErr (r.map f) = isErr r := by
  cases r <;> rfl

lemma relativeIndex_isErr (b : CircularBuffer α) (i : Int) :
    isErr (b.relativeIndex i) = decide ((b.capacity : Int) < |i|) := by
  unfold relativeIndex
  split_ifs with h h2 <;> simp [isErr, h]

/-- Evaluating `at` on a non-negative in-range index returns slot `toArray()[index]`. -/
lemma atIndex_nat_of_wf (b : CircularBuffer α) (hwf : WF b) (j : Nat) (hj : j < b.size) :
    b.atIndex (j : Int) = .ok ((b.toArray).getD j none) := by
  obtain ⟨hc, hw, hlen, _⟩ := hwf
  have hsc : b.size ≤ b.capacity := size_le_capacity b hw
  have habs : ¬ ((b.capacity : Int) < |(j : Int)|) := by
    rw [Int.abs_natCast]
    omega
  cases hbf : b.filled with
  | false =>
    have hjw : j < b.writeIndex := by
      rw [size_not_full b hbf] at hj
      exact hj
    rw [atIndex_eq_of_rel b _ _ (relativeIndex_eq_not_full b _ habs hbf),
      if_neg (show ¬ ((j : Int) < 0) from by omega),
      arrayAt_coe b.buffer j (by omega),
      toArray_not_full b hbf, getD_map_range, if_pos hjw]
  | true =>
    have hjc : j < b.capacity := by
      rw [size_full b hbf] at hj
      exact hj
    rw [atIndex_eq_of_rel b _ _ (relativeIndex_eq_full b _ habs hbf),
      if_neg (show ¬ ((j : Int) < 0) from by omega),
      show (j : Int) + (b.writeIndex : Int) = ((j + b.writeIndex : Nat) : Int) from by push_cast; ring,
      tmod_coe,
      arrayAt_coe b.buffer _ (Nat.lt_of_lt_of_le (Nat.mod_lt _ (by omega)) hlen),
      toArray_full b hbf hw, getD_map_range, if_pos hjc, Nat.add_comm j b.writeIndex]

/-- Evaluating `at(-1)` returns slot `toArray()[size()-1]` on a non-empty well-formed state. -/
lemma atIndex_neg_one_of_wf (b : CircularBuffer α) (hwf : WF b) (hne : b.isEmpty = false) :
    b.atIndex (-1) = .ok ((b.toArray).getD (b.size - 1) none) := by
  obtain ⟨hc, hw, hlen, _⟩ := hwf
  have habs : ¬ ((b.capacity : Int) < |(-1 : Int)|) := by
    rw [show |(-1 : Int)| = 1 from rfl]
    omega
  cases hbf : b.filled with
  | false =>
    have hwpos : 1 ≤ b.writeIndex := by
      unfold isEmpty at hne
      rw [hbf] at hne
      simp at hne
      omega
    have hsz : b.size = b.writeIndex := size_not_full b hbf
    rw [atIndex_eq_of_rel b _ _ (relativeIndex_eq_not_full b _ habs hbf),
      if_pos (show (-1 : Int) < 0 from by omega), hsz,
      show (b.writeIndex : Int) + (-1) = ((b.writeIndex - 1 : Nat) : Int) from by omega,
      arrayAt_coe b.buffer _ (by omega),
      toArray_not_full b hbf, getD_map_range, if_pos (by omega)]
  | true =>
    have hsz : b.size = b.capacity := size_full b hbf
    rw [atIndex_eq_of_rel b _ _ (relativeIndex_eq_full b _ habs hbf),
      if_pos (show (-1 : Int) < 0 from by omega), hsz,
      show (b.capacity : Int) + (-1) + (b.writeIndex : Int)
          = ((b.capacity - 1 + b.writeIndex : Nat) : Int) from by omega,
      tmod_coe,
      arrayAt_coe b.buffer _ (Nat.lt_of_lt_of_le (Nat.mod_lt _ (by omega)) hlen),
      toArray_full b hbf hw, getD_map_range, if_pos (by omega),
      Nat.add_comm (b.capacity - 1) b.writeIndex]

/-- Every entry of `toArray` of a well-formed state is a written value. -/
lemma toArray_all_some (b : CircularBuffer α) (hwf : WF b) : ∀ x ∈ b.toArray, x ≠ none := by
  obtain ⟨hc, hw, hlen, hlive⟩ := hwf
  intro x hx
  cases hbf : b.filled
  · rw [toArray_not_full b hbf] at hx
    obtain ⟨i, hi, rfl⟩ := List.mem_map.mp hx
    simp only [List.mem_range] at hi
    exact hlive i (by rw [hbf]; simpa using hi)
  · rw [toArray_full b hbf hw] at hx
    obtain ⟨i, hi, rfl⟩ := List.mem_map.mp hx
    exact hlive _ (by rw [hbf]; simpa using Nat.mod_lt (b.writeIndex + i) (show 0 < b.capacity from by omega))

end CircularBuffer

namespace CircularBuffer

variable {α : Type}

/-! ### Claim theorems -/

/-- C1: overwrite law — after putting `capacity + m` values (`m ≥ 0`) into a fresh
buffer of capacity `c ≥ 2`, `toArray()` is exactly the input list with its oldest
`m` entries discarded, oldest first. -/
theorem overwrite_law (c m : Nat) (vs : List α) (hc : 2 ≤ c) (hlen : vs.length = c + m) :
    (putList (freshBuf c) vs).toArray = (vs.drop m).map some := by
  obtain ⟨_, _, _, _, h⟩ := putList_state c hc vs
  rw [h, hlen, show c + m - c = m from by omega]

/-- Witness for C1: capacity 3, values 1..4, the oldest value 1 is discarded. -/
theorem overwrite_law_witness :
    (putList (freshBuf 3 : CircularBuffer Nat) [1, 2, 3, 4]).toArray = [some 2, some 3, some 4] :=
  (overwrite_law 3 1 [1, 2, 3, 4] (by decide) (by decide)).trans (by decide)

/-- C2 counterexample: on an empty capacity-3 buffer, `at(-1)` resolves (by the
claimed normalization `size() + index`) to `-1`, which lies outside `[0, capacity)`,
yet the call succeeds returning `undefined` instead of raising `IndexOutOfRange`:
the code checks only `|index| > capacity` on the raw index. -/
theorem atIndex_no_error_on_negative_resolved :
    atIndex (freshBuf 3 : CircularBuffer Nat) (-1) = .ok none ∧
    ((freshBuf 3 : CircularBuffer Nat).size : Int) + (-1) < 0 :=
  ⟨rfl, by decide⟩

/-- C2 (amended): `at`/`putAt` raise `IndexOutOfRange` exactly when
`|index| > capacity`, a check made on the raw index before sign normalization;
a normalized index outside `[0, capacity)` with `|index| ≤ capacity` (negative
resolved index, or `index = capacity`) does not raise. -/
theorem atIndex_putAt_error_iff (b : CircularBuffer α) (v : α) (i : Int) :
    (isErr (b.atIndex i) = true ↔ b.capacity < i.natAbs) ∧
    (isErr (b.putAt v i) = true ↔ b.capacity < i.natAbs) := by
  have hrel : isErr (b.relativeIndex i) = decide ((b.capacity : Int) < |i|) :=
    relativeIndex_isErr b i
  have hcast : ((b.capacity : Int) < |i|) ↔ b.capacity < i.natAbs := by
    rw [Int.abs_eq_natAbs]
    exact_mod_cast Iff.rfl
  constructor
  · rw [atIndex, isErr_map, hrel]
    simp [hcast]
  · rw [putAt, isErr_map, hrel]
    simp [hcast]

/-- C3: on every non-empty reachable state, `at(0)` returns the first element of
the FIFO iteration order (`toArray()[0]`, the oldest live element) and `at(-1)`
the last one (`toArray()[length-1]`, the newest). -/
theorem at_zero_oldest_neg_one_newest (b : CircularBuffer α) (h : Reachable b)
    (hne : b.isEmpty = false) :
    b.atIndex 0 = .ok ((b.toArray).getD 0 none) ∧
    b.atIndex (-1) = .ok ((b.toArray).getD ((b.toArray).length - 1) none) := by
  have hwf := reachable_wf b h
  have hw := hwf.2.1
  have hc := hwf.1
  have hpos : 1 ≤ b.size := by
    unfold isEmpty at hne
    cases hbf : b.filled
    · rw [hbf] at hne
      simp at hne
      rw [size_not_full b hbf]
      omega
    · rw [size_full b hbf]
      omega
  constructor
  · have hres := atIndex_nat_of_wf b hwf 0 (by omega)
    simpa using hres
  · rw [length_toArray b hw]
    exact atIndex_neg_one_of_wf b hwf hne

/-- Witness for C3 on the reachable one-element capacity-2 buffer holding 5. -/
theorem at_zero_oldest_neg_one_newest_witness :
    atIndex ((freshBuf 2 : CircularBuffer Nat).put 5) 0 = .ok (some 5) ∧
    atIndex ((freshBuf 2 : CircularBuffer Nat).put 5) (-1) = .ok (some 5) := by
  have h := at_zero_oldest_neg_one_newest ((freshBuf 2 : CircularBuffer Nat).put 5)
    (Reachable.put _ _ (Reachable.construct 2 (by decide))) (by decide)
  exact ⟨h.1.trans (by rfl), h.2.trans (by rfl)⟩

/-- C4: a fresh buffer of capacity `c ≥ 2` is empty, not full and of size 0;
after `k < c` puts it has size `k` and is not full; after `c` or more puts it is
full with size `c` (the quantification over arbitrary put sequences covers the
persistence under further puts; reads do not change the state). -/
theorem fill_counts (c : Nat) (vs : List α) (hc : 2 ≤ c) :
    (freshBuf c : CircularBuffer α).isEmpty = true ∧
    (freshBuf c : CircularBuffer α).isFull = false ∧
    (freshBuf c : CircularBuffer α).size = 0 ∧
    (vs.length < c →
      (putList (freshBuf c) vs).size = vs.length ∧ (putList (freshBuf c) vs).isFull = false) ∧
    (c ≤ vs.length →
      (putList (freshBuf c) vs).isFull = true ∧ (putList (freshBuf c) vs).size = c) := by
  obtain ⟨hcap, hlen, hfill, hwi, _⟩ := putList_state c hc vs
  refine ⟨rfl, rfl, rfl, ?_, ?_⟩
  · intro hlt
    have hf : (putList (freshBuf c) vs).filled = false := by
      rw [hfill]
      simp
      omega
    exact ⟨by rw [size_not_full _ hf, hwi, Nat.mod_eq_of_lt hlt], by rw [isFull]; exact hf⟩
  · intro hge
    have hf : (putList (freshBuf c) vs).filled = true := by
      rw [hfill]
      simp [hge]
    exact ⟨by rw [isFull]; exact hf, by rw [size_full _ hf, hcap]⟩

/-- Witness for C4: capacity 3 with 2 and with 4 puts. -/
theorem fill_counts_witness :
    ((putList (freshBuf 3 : CircularBuffer Nat) [9, 8]).size = 2 ∧
      (putList (freshBuf 3 : CircularBuffer Nat) [9, 8]).isFull = false) ∧
    ((putList (freshBuf 3 : CircularBuffer Nat) [9, 8, 7, 6]).isFull = true ∧
      (putList (freshBuf 3 : CircularBuffer Nat) [9, 8, 7, 6]).size = 3) :=
  ⟨(fill_counts 3 [9, 8] (by decide)).2.2.2.1 (by decide),
   (fill_counts 3 [9, 8, 7, 6] (by decide)).2.2.2.2 (by decide)⟩

/-- C5: for every state and any index with `|index| > capacity`, both `at` and
`putAt` throw `IndexOutOfRange`; the bound is the capacity, not the live size. -/
theorem abs_gt_capacity_throws (b : CircularBuffer α) (v : α) (i : Int)
    (h : b.capacity < i.natAbs) :
    b.atIndex i = .error "Index out of bounds" ∧
    b.putAt v i = .error "Index out of bounds" := by
  have habs : (b.capacity : Int) < |i| := by
    rw [Int.abs_eq_natAbs]
    exact_mod_cast h
  constructor
  · rw [atIndex]
    unfold relativeIndex
    rw [if_pos habs]
    rfl
  · rw [putAt]
    unfold relativeIndex
    rw [if_pos habs]
    rfl

/-- Witness for C5: capacity 3, `at(4)` and `at(-4)` both throw. -/
theorem abs_gt_capacity_throws_witness :
    atIndex (freshBuf 3 : CircularBuffer Nat) 4 = .error "Index out of bounds" ∧
    atIndex (freshBuf 3 : CircularBuffer Nat) (-4) = .error "Index out of bounds" :=
  ⟨(abs_gt_capacity_throws (freshBuf 3) 0 4 (by decide)).1,
   (abs_gt_capacity_throws (freshBuf 3) 0 (-4) (by decide)).1⟩

/-- C6: construction fails with `InvalidArgument` exactly when the requested
capacity is below 2; any capacity `≥ 2` succeeds and allocates a storage array
of exactly `capacity` slots. -/
theorem construct_spec (c : Int) :
    (c < 2 →
      (construct c : Except String (CircularBuffer α)) = .error "Capacity must be at least 2") ∧
    (2 ≤ c →
      (construct c : Except String (CircularBuffer α)) = .ok (freshBuf c.toNat) ∧
      (freshBuf c.toNat : CircularBuffer α).buffer.length = c.toNat) := by
  constructor
  · intro h
    rw [construct, if_pos h]
  · intro h
    refine ⟨?_, by simp [freshBuf]⟩
    rw [construct, if_neg (by omega)]
    rfl

/-- Witness for C6: capacity 1 fails, capacity 5 succeeds. -/
theorem construct_spec_witness :
    (construct 1 : Except String (CircularBuffer Nat)) = .error "Capacity must be at least 2" ∧
    (construct 5 : Except String (CircularBuffer Nat)) = .ok (freshBuf 5) :=
  ⟨(construct_spec 1).1 (by decide), ((construct_spec 5).2 (by decide)).1⟩

/-- C7: `clear()` resets `writeIndex` to 0 and the full flag to false — so size
is 0, the buffer reads empty and not full — while leaving every storage slot
unchanged. -/
theorem clear_resets_flags_keeps_buffer (b : CircularBuffer α) :
    b.clear.writeIndex = 0 ∧ b.clear.filled = false ∧ b.clear.size = 0 ∧
    b.clear.isEmpty = true ∧ b.clear.isFull = false ∧ b.clear.buffer = b.buffer :=
  ⟨rfl, rfl, rfl, rfl, rfl, rfl⟩

/-- C8: round-trip — re-putting the elements of `toArray()` in order into a
fresh buffer of the same capacity reproduces an equal `toArray()`. -/
theorem round_trip (b : CircularBuffer α) (h : Reachable b) :
    (putList (freshBuf b.capacity) ((b.toArray).reduceOption)).toArray = b.toArray := by
  have hwf := reachable_wf b h
  have hsome := toArray_all_some b hwf
  obtain ⟨hc, hw, hlen, _⟩ := hwf
  have hmap : ((b.toArray).reduceOption).map some = b.toArray :=
    reduceOption_map_some _ hsome
  have hlens : ((b.toArray).reduceOption).length = b.size := by
    have hlm := congrArg List.length hmap
    rw [List.length_map] at hlm
    rw [hlm, length_toArray b hw]
  obtain ⟨_, _, _, _, htoarr⟩ := putList_state b.capacity hc ((b.toArray).reduceOption)
  rw [htoarr, hlens, show b.size - b.capacity = 0 from by
      have := size_le_capacity b hw
      omega,
    List.drop_zero, hmap]

/-- Witness for C8 on the reachable one-element capacity-2 buffer holding 7. -/
theorem round_trip_witness :
    (putList (freshBuf (((freshBuf 2 : CircularBuffer Nat).put 7).capacity))
      ((((freshBuf 2 : CircularBuffer Nat).put 7).toArray).reduceOption)).toArray = [some 7] :=
  (round_trip _ (Reachable.put _ _ (Reachable.construct 2 (by decide)))).trans (by decide)

/-- C9: in every reachable state, `0 ≤ writeIndex < capacity` (the lower bound
is also carried by the `Nat` representation). -/
theorem writeIndex_in_range (b : CircularBuffer α) (h : Reachable b) :
    0 ≤ b.writeIndex ∧ b.writeIndex < b.capacity :=
  ⟨Nat.zero_le _, (reachable_wf b h).2.1⟩

/-- Witness for C9 after one put on a fresh capacity-3 buffer. -/
theorem writeIndex_in_range_witness :
    0 ≤ ((freshBuf 3 : CircularBuffer Nat).put 1).writeIndex ∧
    ((freshBuf 3 : CircularBuffer Nat).put 1).writeIndex
      < ((freshBuf 3 : CircularBuffer Nat).put 1).capacity :=
  writeIndex_in_range _ (Reachable.put _ _ (Reachable.construct 3 (by decide)))

/-- C10: random access agrees with iteration order — on every reachable state
and every integer `i` with `0 ≤ i < size()`, `at(i)` returns `toArray()[i]`. -/
theorem at_agrees_with_toArray (b : CircularBuffer α) (h : Reachable b) (i : Int)
    (h0 : 0 ≤ i) (hsz : i < (b.size : Int)) :
    b.atIndex i = .ok ((b.toArray).getD i.toNat none) := by
  have hwf := reachable_wf b h
  have hres := atIndex_nat_of_wf b hwf i.toNat (by omega)
  rw [Int.toNat_of_nonneg h0] at hres
  exact hres

/-- Witness for C10: the full capacity-2 buffer `[4,5]` at index 1. -/
theorem at_agrees_with_toArray_witness :
    atIndex (((freshBuf 2 : CircularBuffer Nat).put 4).put 5) 1 = .ok (some 5) :=
  (at_agrees_with_toArray _
    (Reachable.put _ _ (Reachable.put _ _ (Reachable.construct 2 (by decide))))
    1 (by decide) (by decide)).trans (by rfl)

end CircularBuffer
